import Mathlib

/-!
Verification of the vehicle subsystem of Cataclysm-DDA against its
natural-language specification.

The repository excerpt contains `src/vehicle.h` (declarations, with a few
inline bodies) and the peripheral `src/cata_utility.cpp`.  Wherever only a
declaration is available the corresponding Lean definition is modelled from
the specification and the header's own doc comments, and is marked as such.
Inline bodies present in the header (`vehicle_part::is_broken`,
`label::operator<`) are translated directly from the source.
-/

namespace Veh

/-! ## Part instance: ammo and health state -/

/-- State of one `vehicle_part` relevant to ammo and health.
Modelled from the spec: the bodies of `vehicle_part::ammo_*`, `hp` and
`vehicle::set_hp` are not under `src/` (only declarations in
`src/vehicle.h`).  Per the spec the part's base item carries one contained
charge total (`charges`) of a specific ammo type, bounded by the catalog
capacity (`capacity`); the catalog fixes which ammo type the part accepts
(`compatible`).  Health state lives on the base item as `damage` with
maximum `max_damage`; the catalog supplies `durability`. -/
structure vehicle_part where
  ammo : String
  charges : Nat
  capacity : Nat
  compatible : String
  damage : Nat
  max_damage : Nat
  durability : Nat

/-- `vehicle_part::ammo_remaining`: amount of fuel, charges or ammunition
currently contained by a part.  Modelled from the spec. -/
def ammo_remaining (p : vehicle_part) : Nat := p.charges

/-- `vehicle_part::ammo_capacity`.  Modelled from the spec. -/
def ammo_capacity (p : vehicle_part) : Nat := p.capacity

/-- `vehicle_part::ammo_set( ammo, qty )`.  Modelled from the spec and the
header doc comment: sets contained charge removing any existing ammo; `qty`
is the maximum ammo (capped by part capacity) or negative to fill to
capacity; returns the amount of ammo actually set, or negative on failure
(ammo type incompatible with the vehicle part). -/
def ammo_set (p : vehicle_part) (ammo : String) (qty : Int) : vehicle_part × Int :=
  if ammo = p.compatible then
    let amt : Nat := if qty < 0 then p.capacity else min qty.toNat p.capacity
    ({ p with ammo := ammo, charges := amt }, (amt : Int))
  else
    (p, -1)

/-- `vehicle_part::ammo_unset`: remove all fuel, charges or ammunition.
Modelled from the spec. -/
def ammo_unset (p : vehicle_part) : vehicle_part := { p with charges := 0 }

/-- `vehicle_part::ammo_consume( qty, pos )`.  Modelled from the spec:
consumes up to `qty` charges, returning the amount actually removed, which
is between `0` and `qty` and never more than was available. -/
def ammo_consume (p : vehicle_part) (qty : Int) : vehicle_part × Int :=
  let c : Int := max 0 (min qty (p.charges : Int))
  ({ p with charges := p.charges - c.toNat }, c)

/-- `vehicle_part::is_broken`, translated from the inline body in
`src/vehicle.h`: `return base.damage() >= base.max_damage();`. -/
def is_broken (p : vehicle_part) : Bool := decide (p.max_damage ≤ p.damage)

/-- `vehicle_part::hp`.  Modelled from the spec: current part health with
range `[0, durability]`, proportional to remaining base-item damage
headroom, reaching `0` exactly at the base item's maximum damage
threshold.  (Natural-number subtraction carries the lower clamp at `0`.) -/
def hp (p : vehicle_part) : Nat :=
  p.durability - p.durability * p.damage / p.max_damage

/-- `vehicle::set_hp( pt, qty )`.  Modelled from the spec and the header
doc comment: sets the health stat constrained to the range
`[0, durability]`, recording it as base-item damage. -/
def set_hp (p : vehicle_part) (qty : Int) : vehicle_part :=
  let h : Nat := (max 0 (min qty (p.durability : Int))).toNat
  { p with damage := p.max_damage * (p.durability - h) / p.durability }

/-- Claim C1: for every part and every `qty ≥ 0`, `ammo_consume qty`
returns `c` with `0 ≤ c ≤ min qty (ammo_remaining before)`, and afterwards
`ammo_remaining` equals the before-value minus `c`; in particular it never
consumes more than was available. -/
theorem C1_ammo_consume_spec (p : vehicle_part) (qty : Int) (hq : 0 ≤ qty) :
    0 ≤ (ammo_consume p qty).2 ∧
    (ammo_consume p qty).2 ≤ min qty ((ammo_remaining p : Int)) ∧
    ((ammo_remaining (ammo_consume p qty).1 : Int)) =
      (ammo_remaining p : Int) - (ammo_consume p qty).2 := by
  simp only [ammo_consume, ammo_remaining]
  omega

theorem C1_ammo_consume_spec_witness :
    0 ≤ (3 : Int) ∧
    (0 ≤ (ammo_consume ⟨"battery", 5, 10, "battery", 0, 4, 100⟩ 3).2 ∧
     (ammo_consume ⟨"battery", 5, 10, "battery", 0, 4, 100⟩ 3).2 ≤
       min 3 ((ammo_remaining ⟨"battery", 5, 10, "battery", 0, 4, 100⟩ : Int)) ∧
     ((ammo_remaining (ammo_consume ⟨"battery", 5, 10, "battery", 0, 4, 100⟩ 3).1 : Int)) =
       (ammo_remaining ⟨"battery", 5, 10, "battery", 0, 4, 100⟩ : Int) -
         (ammo_consume ⟨"battery", 5, 10, "battery", 0, 4, 100⟩ 3).2) :=
  ⟨by norm_num, C1_ammo_consume_spec ⟨"battery", 5, 10, "battery", 0, 4, 100⟩ 3 (by norm_num)⟩

/-- Claim C9: `ammo_set ammo qty` with negative `qty` fills the part to its
full `ammo_capacity`; with `qty ≥ 0` the amount set is capped at
`ammo_capacity`; the return value equals the amount actually set and is
negative exactly when the ammo type is incompatible with the part (in which
case the part is unchanged). -/
theorem C9_ammo_set_spec (p : vehicle_part) (a : String) (qty : Int) :
    (a = p.compatible →
      (qty < 0 →
        (ammo_set p a qty).2 = (ammo_capacity p : Int) ∧
        ammo_remaining (ammo_set p a qty).1 = ammo_capacity p) ∧
      (0 ≤ qty →
        (ammo_set p a qty).2 = min qty (ammo_capacity p : Int) ∧
        (ammo_remaining (ammo_set p a qty).1 : Int) = (ammo_set p a qty).2) ∧
      0 ≤ (ammo_set p a qty).2) ∧
    (a ≠ p.compatible →
      (ammo_set p a qty).2 < 0 ∧ (ammo_set p a qty).1 = p) := by
  constructor
  · intro ha
    refine ⟨fun hneg => ?_, fun hpos => ?_, ?_⟩
    · simp [ammo_set, ha, ammo_remaining, ammo_capacity, hneg]
    · have hnn : ¬ qty < 0 := by omega
      refine ⟨?_, ?_⟩ <;>
        simp only [ammo_set, if_pos ha, if_neg hnn, ammo_remaining, ammo_capacity] <;>
        omega
    · simp only [ammo_set, if_pos ha]
      split <;> omega
  · intro ha
    simp [ammo_set, ha]

theorem C9_ammo_set_spec_witness :
    (("gasoline" : String) = "gasoline" →
      ((-1 : Int) < 0 →
        (ammo_set ⟨"null", 0, 60, "gasoline", 0, 4, 100⟩ "gasoline" (-1)).2 =
          (ammo_capacity ⟨"null", 0, 60, "gasoline", 0, 4, 100⟩ : Int) ∧
        ammo_remaining (ammo_set ⟨"null", 0, 60, "gasoline", 0, 4, 100⟩ "gasoline" (-1)).1 =
          ammo_capacity ⟨"null", 0, 60, "gasoline", 0, 4, 100⟩) ∧
      (0 ≤ (-1 : Int) →
        (ammo_set ⟨"null", 0, 60, "gasoline", 0, 4, 100⟩ "gasoline" (-1)).2 =
          min (-1) (ammo_capacity ⟨"null", 0, 60, "gasoline", 0, 4, 100⟩ : Int) ∧
        (ammo_remaining (ammo_set ⟨"null", 0, 60, "gasoline", 0, 4, 100⟩ "gasoline" (-1)).1 : Int) =
          (ammo_set ⟨"null", 0, 60, "gasoline", 0, 4, 100⟩ "gasoline" (-1)).2) ∧
      0 ≤ (ammo_set ⟨"null", 0, 60, "gasoline", 0, 4, 100⟩ "gasoline" (-1)).2) ∧
    (("gasoline" : String) ≠ "gasoline" →
      (ammo_set ⟨"null", 0, 60, "gasoline", 0, 4, 100⟩ "gasoline" (-1)).2 < 0 ∧
      (ammo_set ⟨"null", 0, 60, "gasoline", 0, 4, 100⟩ "gasoline" (-1)).1 =
        ⟨"null", 0, 60, "gasoline", 0, 4, 100⟩) :=
  C9_ammo_set_spec ⟨"null", 0, 60, "gasoline", 0, 4, 100⟩ "gasoline" (-1)

/-- Claim C2: for every part, `0 ≤ hp ≤ durability` (the lower bound is
carried by the natural-number codomain), `set_hp` keeps health in that
range, and `is_broken` holds exactly when health has reached the zero-hp
threshold, i.e. `is_broken ↔ hp = 0`. -/
theorem C2_hp_broken_spec (p : vehicle_part) (qty : Int)
    (hd : 0 < p.durability) (hm : 0 < p.max_damage) :
    hp p ≤ p.durability ∧
    hp (set_hp p qty) ≤ p.durability ∧
    (is_broken p = true ↔ hp p = 0) := by
  refine ⟨Nat.sub_le _ _, Nat.sub_le _ _, ?_⟩
  simp only [is_broken, hp, decide_eq_true_eq]
  constructor
  · intro h
    have hle : p.durability * p.max_damage ≤ p.durability * p.damage :=
      Nat.mul_le_mul_left _ h
    have hdiv : p.durability ≤ p.durability * p.damage / p.max_damage := by
      rw [Nat.le_div_iff_mul_le hm]
      exact hle
    omega
  · intro h
    have hdiv : p.durability ≤ p.durability * p.damage / p.max_damage := by omega
    rw [Nat.le_div_iff_mul_le hm] at hdiv
    exact Nat.le_of_mul_le_mul_left hdiv hd

theorem C2_hp_broken_spec_witness :
    (0 < (100 : Nat) ∧ 0 < (4 : Nat)) ∧
    (hp ⟨"null", 0, 0, "null", 2, 4, 100⟩ ≤ 100 ∧
     hp (set_hp ⟨"null", 0, 0, "null", 2, 4, 100⟩ 7) ≤ 100 ∧
     (is_broken ⟨"null", 0, 0, "null", 2, 4, 100⟩ = true ↔
      hp ⟨"null", 0, 0, "null", 2, 4, 100⟩ = 0)) :=
  ⟨⟨by norm_num, by norm_num⟩,
   C2_hp_broken_spec ⟨"null", 0, 0, "null", 2, 4, 100⟩ 7 (by norm_num) (by norm_num)⟩

/-! ## Battery charging (`vehicle::charge_battery`) -/

/-- One battery part as a pair `(stored charge, capacity)`. -/
abbrev battery := Int × Int

/-- Total stored charge over a list of battery parts. -/
def total_charge (bs : List battery) : Int := (bs.map Prod.fst).sum

/-- Total battery capacity over a list of battery parts. -/
def total_capacity (bs : List battery) : Int := (bs.map Prod.snd).sum

/-- `vehicle::charge_battery( amount, recurse )`.  Modelled from the spec:
the implementation is not under `src/`.  The charge is distributed over the
vehicle's battery parts in order (for `recurse`, over the batteries of every
vehicle reached by the power-transfer traversal, which is claim C4; the
list may be read as that concatenation), each battery topped up to its
capacity, and the leftover amount is returned. -/
def charge_battery : List battery → Int → List battery × Int
  | [], amount => ([], amount)
  | b :: rest, amount =>
    let add := max 0 (min amount (b.2 - b.1))
    let r := charge_battery rest (amount - add)
    ((b.1 + add, b.2) :: r.1, r.2)

/-- Battery parts are well formed when each holds a non-negative charge no
greater than its capacity. -/
def batteries_wf (bs : List battery) : Prop := ∀ b ∈ bs, 0 ≤ b.1 ∧ b.1 ≤ b.2

/-- Helper for C3: inductive step facts about `charge_battery`. -/
theorem charge_battery_facts (bs : List battery) (amount : Int)
    (hwf : batteries_wf bs) (ha : 0 ≤ amount) :
    0 ≤ (charge_battery bs amount).2 ∧
    (charge_battery bs amount).2 ≤ amount ∧
    total_charge (charge_battery bs amount).1 =
      total_charge bs + (amount - (charge_battery bs amount).2) ∧
    batteries_wf (charge_battery bs amount).1 ∧
    total_capacity (charge_battery bs amount).1 = total_capacity bs := by
  induction bs generalizing amount with
  | nil =>
    simp [charge_battery, batteries_wf, ha]
  | cons b rest ih =>
    have hb : 0 ≤ b.1 ∧ b.1 ≤ b.2 := hwf b (List.mem_cons_self b rest)
    have hrest : batteries_wf rest := fun x hx => hwf x (List.mem_cons_of_mem b hx)
    have hadd : 0 ≤ max 0 (min amount (b.2 - b.1)) := le_max_left 0 _
    have hadd2 : max 0 (min amount (b.2 - b.1)) ≤ amount := by omega
    have hadd3 : max 0 (min amount (b.2 - b.1)) ≤ b.2 - b.1 := by omega
    have := ih (amount - max 0 (min amount (b.2 - b.1))) hrest (by omega)
    simp only [charge_battery, total_charge, total_capacity, List.map_cons, List.sum_cons,
      batteries_wf, List.mem_cons] at this ⊢
    refine ⟨by omega, by omega, by omega, ?_, by omega⟩
    rintro x (rfl | hx)
    · constructor <;> omega
    · exact this.2.2.2.1 x hx

/-- Helper: well-formed battery lists store no more than their capacity. -/
theorem total_charge_le_total_capacity (bs : List battery) (hwf : batteries_wf bs) :
    total_charge bs ≤ total_capacity bs := by
  induction bs with
  | nil => simp [total_charge, total_capacity]
  | cons b rest ih =>
    have hb : 0 ≤ b.1 ∧ b.1 ≤ b.2 := hwf b (List.mem_cons_self b rest)
    have hrest : batteries_wf rest := fun x hx => hwf x (List.mem_cons_of_mem b hx)
    have := ih hrest
    simp only [total_charge, total_capacity, List.map_cons, List.sum_cons] at this ⊢
    omega

/-- Claim C3: for every vehicle and every `amount ≥ 0`,
`charge_battery amount` returns a leftover `l` with `0 ≤ l ≤ amount`, the
total stored battery charge increases by exactly `amount − l`, and the
stored charge never exceeds total battery capacity. -/
theorem C3_charge_battery_spec (bs : List battery) (amount : Int)
    (hwf : batteries_wf bs) (ha : 0 ≤ amount) :
    0 ≤ (charge_battery bs amount).2 ∧
    (charge_battery bs amount).2 ≤ amount ∧
    total_charge (charge_battery bs amount).1 =
      total_charge bs + (amount - (charge_battery bs amount).2) ∧
    total_charge (charge_battery bs amount).1 ≤
      total_capacity (charge_battery bs amount).1 := by
  obtain ⟨h1, h2, h3, h4, h5⟩ := charge_battery_facts bs amount hwf ha
  exact ⟨h1, h2, h3, total_charge_le_total_capacity _ h4⟩

theorem C3_charge_battery_spec_witness :
    batteries_wf [((2 : Int), (5 : Int)), (0, 4)] ∧ 0 ≤ (10 : Int) ∧
    (0 ≤ (charge_battery [((2 : Int), (5 : Int)), (0, 4)] 10).2 ∧
     (charge_battery [((2 : Int), (5 : Int)), (0, 4)] 10).2 ≤ 10 ∧
     total_charge (charge_battery [((2 : Int), (5 : Int)), (0, 4)] 10).1 =
       total_charge [((2 : Int), (5 : Int)), (0, 4)] +
         (10 - (charge_battery [((2 : Int), (5 : Int)), (0, 4)] 10).2) ∧
     total_charge (charge_battery [((2 : Int), (5 : Int)), (0, 4)] 10).1 ≤
       total_capacity (charge_battery [((2 : Int), (5 : Int)), (0, 4)] 10).1) :=
  ⟨by unfold batteries_wf; decide, by decide,
   C3_charge_battery_spec [((2 : Int), (5 : Int)), (0, 4)] 10
     (by unfold batteries_wf; decide) (by decide)⟩

/-! ## Cross-vehicle power traversal (`vehicle::traverse_vehicle_graph`) -/

/-- `vehicle::traverse_vehicle_graph( start_veh, amount, visitor )`.
Modelled from the spec and the header doc comment: the implementation is
not under `src/`.  Vehicles are drawn from a finite universe `Fin n`;
`adj` gives the vehicles linked by a POWER_TRANSFER part, `visitor` is the
callback (its two extra C++ arguments, the per-hop loss and the vehicle
pointer, are folded into the closure), `queue` holds the pending vehicles
(initially the neighbours of the start vehicle, which is assumed already
visited, i.e. in `visited`), and `amount` is threaded through the
visitors, traversal halting as soon as a visitor returns `0`.  The
returned list records the visit order; the returned `Int` is the last
visitor's value.  Termination, even on cyclic link graphs, is by the
decreasing count of unvisited vehicles (no fuel parameter). -/
def traverse_vehicle_graph {n : Nat} (adj : Fin n → List (Fin n)) (visitor : Fin n → Int → Int)
    (queue : List (Fin n)) (visited : Finset (Fin n)) (amount : Int) :
    List (Fin n) × Int :=
  match queue with
  | [] => ([], amount)
  | v :: rest =>
    if hv : v ∈ visited then
      traverse_vehicle_graph adj visitor rest visited amount
    else
      if visitor v amount = 0 then ([v], visitor v amount)
      else
        let r := traverse_vehicle_graph adj visitor (rest ++ adj v) (insert v visited)
          (visitor v amount)
        (v :: r.1, r.2)
termination_by ((Finset.univ \ visited).card, queue.length)
decreasing_by
  · apply Prod.Lex.right
    exact Nat.lt_succ_self _
  · apply Prod.Lex.left
    rw [Finset.sdiff_insert]
    exact Finset.card_erase_lt_of_mem (Finset.mem_sdiff.mpr ⟨Finset.mem_univ v, hv⟩)

/-- Helper for C4: the traversal never revisits a vehicle: the visit order
is duplicate-free and disjoint from the initially visited set. -/
theorem traverse_visits_once {n : Nat} (adj : Fin n → List (Fin n)) (visitor : Fin n → Int → Int)
    (queue : List (Fin n)) (visited : Finset (Fin n)) (amount : Int) :
    (traverse_vehicle_graph adj visitor queue visited amount).1.Nodup ∧
    ∀ v ∈ (traverse_vehicle_graph adj visitor queue visited amount).1, v ∉ visited := by
  induction queue, visited, amount using traverse_vehicle_graph.induct adj visitor with
  | case1 visited amount =>
    simp [traverse_vehicle_graph]
  | case2 visited amount v rest hv ih =>
    rw [traverse_vehicle_graph]
    simp only [dif_pos hv]
    exact ih
  | case3 visited amount v rest hv hz =>
    rw [traverse_vehicle_graph]
    simp only [dif_neg hv, if_pos hz]
    simp [hv]
  | case4 visited amount v rest hv hz ih =>
    rw [traverse_vehicle_graph]
    simp only [dif_neg hv, if_neg hz]
    obtain ⟨ihnd, ihfresh⟩ := ih
    constructor
    · refine List.nodup_cons.mpr ⟨?_, ihnd⟩
      intro hmem
      exact (ihfresh v hmem) (Finset.mem_insert_self v visited)
    · intro x hx
      rcases List.mem_cons.mp hx with rfl | hx2
      · exact hv
      · intro hxv
        exact (ihfresh x hx2) (Finset.mem_insert_of_mem hxv)

/-- Helper for C4: when every visitor step returns a value between `0` and
its input, the final amount stays between `0` and the initial amount. -/
theorem traverse_amount_bounds {n : Nat} (adj : Fin n → List (Fin n))
    (visitor : Fin n → Int → Int) (queue : List (Fin n)) (visited : Finset (Fin n))
    (amount : Int) (hvis : ∀ v a, 0 ≤ a → 0 ≤ visitor v a ∧ visitor v a ≤ a) :
    0 ≤ amount →
    0 ≤ (traverse_vehicle_graph adj visitor queue visited amount).2 ∧
    (traverse_vehicle_graph adj visitor queue visited amount).2 ≤ amount := by
  induction queue, visited, amount using traverse_vehicle_graph.induct adj visitor with
  | case1 visited amount =>
    intro ha
    simp [traverse_vehicle_graph, ha]
  | case2 visited amount v rest hv ih =>
    intro ha
    rw [traverse_vehicle_graph]
    simp only [dif_pos hv]
    exact ih ha
  | case3 visited amount v rest hv hz =>
    intro ha
    rw [traverse_vehicle_graph]
    simp only [dif_neg hv, if_pos hz]
    constructor <;> omega
  | case4 visited amount v rest hv hz ih =>
    intro ha
    rw [traverse_vehicle_graph]
    simp only [dif_neg hv, if_neg hz]
    have hstep := hvis v amount ha
    have := ih (by omega)
    constructor <;> omega

/-- Claim C4: one call to the battery/power traversal visits each vehicle
at most once and terminates even on cyclic link graphs (termination is
witnessed by `traverse_vehicle_graph` being defined by well-founded
recursion on the unvisited count, with no fuel), and when each visitor
distributes part of its incoming amount (returning a value between `0` and
its input) the total distributed over all visited vehicles — the initial
amount minus the final value — is between `0` and the requested amount. -/
theorem C4_traverse_vehicle_graph_spec {n : Nat} (adj : Fin n → List (Fin n))
    (visitor : Fin n → Int → Int) (queue : List (Fin n)) (visited : Finset (Fin n))
    (amount : Int) (hvis : ∀ v a, 0 ≤ a → 0 ≤ visitor v a ∧ visitor v a ≤ a)
    (ha : 0 ≤ amount) :
    (traverse_vehicle_graph adj visitor queue visited amount).1.Nodup ∧
    (∀ v ∈ (traverse_vehicle_graph adj visitor queue visited amount).1, v ∉ visited) ∧
    0 ≤ amount - (traverse_vehicle_graph adj visitor queue visited amount).2 ∧
    amount - (traverse_vehicle_graph adj visitor queue visited amount).2 ≤ amount := by
  obtain ⟨h1, h2⟩ := traverse_visits_once adj visitor queue visited amount
  obtain ⟨h3, h4⟩ := traverse_amount_bounds adj visitor queue visited amount hvis ha
  exact ⟨h1, h2, by omega, by omega⟩

theorem C4_traverse_vehicle_graph_spec_witness :
    (traverse_vehicle_graph (fun v : Fin 2 => [v + 1]) (fun _ a => a / 2)
        [(1 : Fin 2)] {0} 8).1.Nodup ∧
    (∀ v ∈ (traverse_vehicle_graph (fun v : Fin 2 => [v + 1]) (fun _ a => a / 2)
        [(1 : Fin 2)] {0} 8).1, v ∉ ({0} : Finset (Fin 2))) ∧
    0 ≤ 8 - (traverse_vehicle_graph (fun v : Fin 2 => [v + 1]) (fun _ a => a / 2)
        [(1 : Fin 2)] {0} 8).2 ∧
    8 - (traverse_vehicle_graph (fun v : Fin 2 => [v + 1]) (fun _ a => a / 2)
        [(1 : Fin 2)] {0} 8).2 ≤ 8 :=
  C4_traverse_vehicle_graph_spec (fun v : Fin 2 => [v + 1]) (fun _ a => a / 2)
    [(1 : Fin 2)] {0} 8
    (by
      intro v a hnn
      show 0 ≤ a / 2 ∧ a / 2 ≤ a
      constructor <;> omega)
    (by norm_num)

/-! ## Turret subsystem (`turret_data`) -/

/-- Turret query states, translated from `turret_data::status` in
`src/vehicle.h`. -/
inductive turret_status
  | invalid
  | no_ammo
  | no_power
  | ready
deriving DecidableEq

/-- State of one turret as seen by `turret_data`.  Modelled from the spec:
the bodies of `turret_data::query` and `turret_data::fire` are not under
`src/`.  `valid` is the validity check of `operator bool` (vehicle and
part present); `ammo` the charges available (directly or tank-fed);
`power` the vehicle battery charge; `cost` the electrical discharge cost
per shot; `burst` the number of shots attempted by one `fire` call. -/
structure turret_data where
  valid : Bool
  ammo : Nat
  power : Nat
  cost : Nat
  burst : Nat

/-- `turret_data::query`.  Modelled from the spec: `invalid` when the
instance is not a valid turret, `no_ammo` when no ammunition is available,
`no_power` when the battery charge is insufficient for the discharge cost,
otherwise `ready`. -/
def query (t : turret_data) : turret_status :=
  if ¬ t.valid then .invalid
  else if t.ammo = 0 then .no_ammo
  else if t.power < t.cost then .no_power
  else .ready

/-- `turret_data::fire( p, target )`.  Modelled from the spec: acts only
when `query` is `ready`; otherwise it fires zero shots and leaves the
state unchanged.  When ready, the number of shots in the call is bounded
by the attempted burst, by the available ammo, and by the available power
(whichever runs out first); ammo and power are consumed accordingly. -/
def fire (t : turret_data) : turret_data × Nat :=
  if query t = .ready then
    let shots := min t.burst (min t.ammo (if t.cost = 0 then t.burst else t.power / t.cost))
    ({ t with ammo := t.ammo - shots, power := t.power - shots * t.cost }, shots)
  else
    (t, 0)

/-- Claim C6: `fire` succeeds (fires at least one shot) only when
`query = ready`; calling it while `query` is `no_ammo` or `no_power`
returns zero shots and leaves the turret state unchanged; and when it does
fire, the shots of one call are bounded by both ammo and power
availability: no more shots than ammo charges, and the power consumed
never exceeds what was available. -/
theorem C6_turret_fire_spec (t : turret_data) :
    ((query t = .no_ammo ∨ query t = .no_power) → fire t = (t, 0)) ∧
    (0 < (fire t).2 → query t = .ready) ∧
    (fire t).2 ≤ t.ammo ∧
    (fire t).2 * t.cost ≤ t.power ∧
    (fire t).1.ammo = t.ammo - (fire t).2 ∧
    (fire t).1.power = t.power - (fire t).2 * t.cost := by
  by_cases hq : query t = .ready
  · have hP : t.cost ≤ t.power := by
      simp only [query] at hq
      split_ifs at hq with h1 h2 h3 <;> first | omega | cases hq
    simp only [fire, if_pos hq]
    refine ⟨?_, fun _ => hq, ?_, ?_, by first | trivial | omega, by first | trivial | omega⟩
    · intro hc
      rcases hc with hc | hc <;> rw [hq] at hc <;> cases hc
    · omega
    · by_cases hz : t.cost = 0
      · simp [hz]
      · simp only [if_neg hz]
        have h1 : min t.burst (min t.ammo (t.power / t.cost)) ≤ t.power / t.cost := by
          omega
        have h2 := Nat.mul_le_mul_right t.cost h1
        exact le_trans h2 (Nat.div_mul_le_self t.power t.cost)
  · simp only [fire, if_neg hq]
    refine ⟨fun _ => by first | trivial | rfl, ?_, by first | trivial | omega,
      by first | trivial | omega, by first | trivial | omega, by first | trivial | omega⟩
    intro hc
    omega

/-! ## Mass cache (`vehicle::invalidate_mass` / `vehicle::total_mass`) -/

/-- The mass-relevant state of one part.  Modelled from the spec: catalog
weight, contained item/cargo weight, crew weight if occupied (zero
otherwise), and the deferred-removal tombstone flag of
`vehicle_part::removed`. -/
structure mass_part where
  removed : Bool
  base_mass : Int
  cargo_mass : Int
  crew_mass : Int

/-- Mass contributed by one non-removed part. -/
def part_mass (p : mass_part) : Int := p.base_mass + p.cargo_mass + p.crew_mass

/-- The from-scratch total mass: the sum over all non-removed parts of
catalog weight plus cargo weight plus crew weight.  Modelled from the
spec (the computation performed by `vehicle::refresh_mass`). -/
def recompute_mass (ps : List mass_part) : Int :=
  ((ps.filter (fun p => !p.removed)).map part_mass).sum

/-- Mass-cache state of a vehicle: the part list, the `mass_dirty` flag
and the `mass_cache` value of `src/vehicle.h`. -/
structure mvehicle where
  parts : List mass_part
  mass_dirty : Bool
  mass_cache : Int

/-- `vehicle::invalidate_mass`: mark the mass cache dirty.  Modelled from
the spec. -/
def invalidate_mass (v : mvehicle) : mvehicle := { v with mass_dirty := true }

/-- `vehicle::total_mass`: lazily recomputed cached mass — recompute and
clear the dirty flag on read if dirty, else serve the cache.  Modelled
from the spec. -/
def total_mass (v : mvehicle) : mvehicle × Int :=
  if v.mass_dirty then
    ({ v with mass_cache := recompute_mass v.parts, mass_dirty := false },
     recompute_mass v.parts)
  else
    (v, v.mass_cache)

/-- Replace the `i`-th part using `f` (identity when out of range). -/
def modify_part : List mass_part → Nat → (mass_part → mass_part) → List mass_part
  | [], _, _ => []
  | p :: ps, 0, f => f p :: ps
  | p :: ps, i + 1, f => p :: modify_part ps i f

/-- The mutating operations of the claim: install/remove part, cargo
add/remove, crew board/unboard, damage removing a part — plus cache reads
interleaved between them. -/
inductive veh_op
  | install (p : mass_part)
  | remove (i : Nat)
  | add_cargo (i : Nat) (w : Int)
  | remove_cargo (i : Nat) (w : Int)
  | board (i : Nat) (w : Int)
  | unboard (i : Nat)
  | damage_removes (i : Nat)
  | read_mass

/-- Apply one vehicle operation.  Modelled from the spec: every mutation
path marks the mass cache dirty via `invalidate_mass`. -/
def apply_op (v : mvehicle) : veh_op → mvehicle
  | .install p => invalidate_mass { v with parts := v.parts ++ [p] }
  | .remove i =>
      invalidate_mass { v with parts := modify_part v.parts i (fun p => { p with removed := true }) }
  | .add_cargo i w =>
      invalidate_mass
        { v with parts := modify_part v.parts i (fun p => { p with cargo_mass := p.cargo_mass + w }) }
  | .remove_cargo i w =>
      invalidate_mass
        { v with parts := modify_part v.parts i (fun p => { p with cargo_mass := p.cargo_mass - w }) }
  | .board i w =>
      invalidate_mass { v with parts := modify_part v.parts i (fun p => { p with crew_mass := w }) }
  | .unboard i =>
      invalidate_mass { v with parts := modify_part v.parts i (fun p => { p with crew_mass := 0 }) }
  | .damage_removes i =>
      invalidate_mass { v with parts := modify_part v.parts i (fun p => { p with removed := true }) }
  | .read_mass => (total_mass v).1

/-- The cache-coherence invariant: a clean cache holds the from-scratch
value. -/
def mass_ok (v : mvehicle) : Prop :=
  v.mass_dirty = false → v.mass_cache = recompute_mass v.parts

/-- Helper for C7: every operation preserves cache coherence. -/
theorem apply_op_mass_ok (v : mvehicle) (op : veh_op) (h : mass_ok v) :
    mass_ok (apply_op v op) := by
  cases op <;>
    simp only [apply_op, invalidate_mass, total_mass, mass_ok] at h ⊢ <;>
    first
      | (intro hc; cases hc)
      | (split <;> simp_all)

/-- Helper for C7: a coherent cache read returns the from-scratch value. -/
theorem total_mass_eq (v : mvehicle) (h : mass_ok v) :
    (total_mass v).2 = recompute_mass v.parts := by
  simp only [total_mass]
  split
  · rfl
  · next hnd => exact h (by simpa using hnd)

/-- Claim C7: after every sequence of mutating operations (install/remove
part, cargo add/remove, crew board/unboard, damage removing a part, with
cache reads interleaved), the cached total mass read through `total_mass`
equals the from-scratch recomputation over all non-removed parts — no
mutation path bypasses marking the mass cache dirty. -/
theorem C7_mass_cache_spec (ops : List veh_op) (v : mvehicle) (h : mass_ok v) :
    (total_mass (ops.foldl apply_op v)).2 =
      recompute_mass (ops.foldl apply_op v).parts := by
  have hok : mass_ok (ops.foldl apply_op v) := by
    induction ops generalizing v with
    | nil => exact h
    | cons op rest ih =>
      simp only [List.foldl_cons]
      exact ih (apply_op v op) (apply_op_mass_ok v op h)
  exact total_mass_eq _ hok

theorem C7_mass_cache_spec_witness :
    (total_mass ([veh_op.install ⟨false, 100, 0, 0⟩, veh_op.add_cargo 0 7, veh_op.read_mass,
        veh_op.board 0 60, veh_op.remove 0].foldl apply_op ⟨[], true, 0⟩)).2 =
      recompute_mass ([veh_op.install ⟨false, 100, 0, 0⟩, veh_op.add_cargo 0 7, veh_op.read_mass,
        veh_op.board 0 60, veh_op.remove 0].foldl apply_op ⟨[], true, 0⟩).parts :=
  C7_mass_cache_spec [veh_op.install ⟨false, 100, 0, 0⟩, veh_op.add_cargo 0 7, veh_op.read_mass,
      veh_op.board 0 60, veh_op.remove 0] ⟨[], true, 0⟩
    (by intro hc; cases hc)

/-! ## Part installation (`vehicle::can_mount` / `vehicle::install_part`) -/

/-- A mounted part as far as installation rules are concerned: its mount
coordinates and its catalog location slot (e.g. "structure",
"engine_block"; the empty string means the part is so small as to have no
particular location).  Modelled from the spec and the installation rules
stated in the `vehicle` class doc comment of `src/vehicle.h`. -/
structure ipart where
  mx : Int
  my : Int
  location : String

/-- Installation state of a vehicle: the part list. -/
structure ivehicle where
  parts : List ipart

/-- `vehicle::parts_at_relative( dx, dy )`: the parts at a mount
coordinate.  Modelled from the spec. -/
def parts_at_relative (v : ivehicle) (dx dy : Int) : List ipart :=
  v.parts.filter (fun p => decide (p.mx = dx ∧ p.my = dy))

/-- `vehicle::has_structural_part( dx, dy )`.  Modelled from the spec:
whether some part at the mount occupies the "structure" location. -/
def has_structural_part (v : ivehicle) (dx dy : Int) : Bool :=
  (parts_at_relative v dx dy).any (fun p => p.location == "structure")

/-- `vehicle::can_mount( dx, dy, id )`.  Modelled from the spec and the
installation rules in the class doc comment of `src/vehicle.h`: every
mount point must begin with a part in the "structure" location, so the
first part installed at a mount must be structural; and no part can stack
with another part in the same location, unless that location is empty
(parts with no particular location). -/
def can_mount (v : ivehicle) (dx dy : Int) (loc : String) : Bool :=
  (if (parts_at_relative v dx dy).isEmpty then loc == "structure" else true) &&
  (parts_at_relative v dx dy).all (fun p => !(p.location == loc) || loc == "")

/-- `vehicle::install_part( dx, dy, id )`.  Modelled from the spec: when
`can_mount` rejects the configuration the operation is a no-op and the
sentinel index `-1` is returned; otherwise the part is appended and its
index returned. -/
def install_part (v : ivehicle) (dx dy : Int) (loc : String) : ivehicle × Int :=
  if can_mount v dx dy loc then
    (⟨v.parts ++ [⟨dx, dy, loc⟩]⟩, (v.parts.length : Int))
  else
    (v, -1)

/-- Counterexample to claim C5 as stated: installing a part at a mount
coordinate that has no structural part does not always fail — a part in
the "structure" location itself (a frame) installs successfully at an
empty mount (indeed the class doc comment requires every mount to begin
with a structural part), changing the part count. -/
theorem C5_counterexample :
    has_structural_part ⟨[]⟩ 0 0 = false ∧
    (install_part ⟨[]⟩ 0 0 "structure").2 = 0 ∧
    (install_part ⟨[]⟩ 0 0 "structure").1.parts.length = 1 := by
  refine ⟨rfl, ?_, ?_⟩ <;> simp [install_part, can_mount, parts_at_relative]

/-- Claim C5 (amended): installing a non-structural part at a mount with
no parts (hence no structural part) fails; installing a part whose
nonempty location slot is already occupied at that mount fails; in both
cases — and whenever the sentinel `-1` is returned — the operation is a
no-op, leaving the part list unchanged. -/
theorem C5_install_part_spec (v : ivehicle) (dx dy : Int) (loc : String)
    (hne : loc ≠ "") :
    ((parts_at_relative v dx dy).isEmpty = true → loc ≠ "structure" →
      install_part v dx dy loc = (v, -1)) ∧
    ((parts_at_relative v dx dy).any (fun p => p.location == loc) = true →
      install_part v dx dy loc = (v, -1)) ∧
    ((install_part v dx dy loc).2 = -1 → (install_part v dx dy loc).1 = v) := by
  refine ⟨?_, ?_, ?_⟩
  · intro hempty hloc
    have hcm : can_mount v dx dy loc = false := by
      simp [can_mount, hempty, hloc]
    simp [install_part, hcm]
  · intro hocc
    have hcm : can_mount v dx dy loc = false := by
      simp only [can_mount, Bool.and_eq_false_iff]
      right
      simp only [List.all_eq_false]
      rcases List.any_eq_true.mp hocc with ⟨p, hp, hpl⟩
      refine ⟨p, hp, ?_⟩
      simp [hpl, hne]
    simp [install_part, hcm]
  · intro hfail
    by_cases hcm : can_mount v dx dy loc = true
    · exfalso
      simp only [install_part, if_pos hcm] at hfail
      omega
    · simp only [install_part, if_neg hcm]

theorem C5_install_part_spec_witness :
    ("engine" : String) ≠ "" ∧
    (((parts_at_relative ⟨[]⟩ 0 0).isEmpty = true → ("engine" : String) ≠ "structure" →
        install_part ⟨[]⟩ 0 0 "engine" = (⟨[]⟩, -1)) ∧
     ((parts_at_relative ⟨[]⟩ 0 0).any (fun p => p.location == "engine") = true →
        install_part ⟨[]⟩ 0 0 "engine" = (⟨[]⟩, -1)) ∧
     ((install_part ⟨[]⟩ 0 0 "engine").2 = -1 → (install_part ⟨[]⟩ 0 0 "engine").1 = ⟨[]⟩)) :=
  ⟨by simp, C5_install_part_spec ⟨[]⟩ 0 0 "engine" (by simp)⟩

/-! ## Mount rotation (`vehicle::coord_translate` / `vehicle::precalc_mounts`) -/

/-- A vehicle-local point (`point` of the source). -/
structure vpoint where
  x : Int
  y : Int
deriving DecidableEq

/-- Rotation of a point by `dir` degrees in the tileray coordinate system
of `src/vehicle.h` (positive `x` forward, positive `y` right).  Modelled
from the spec for the right-angle directions the claim exercises;
non-cardinal directions are outside this model (treated as `0`). -/
def rot (dir : Int) (p : vpoint) : vpoint :=
  if dir.emod 360 = 90 then ⟨-p.y, p.x⟩
  else if dir.emod 360 = 180 then ⟨-p.x, -p.y⟩
  else if dir.emod 360 = 270 then ⟨p.y, -p.x⟩
  else p

/-- `vehicle::coord_translate( dir, pivot, p, q )`.  Modelled from the
spec: rotates mount coordinate `p` by `dir` around `pivot`. -/
def coord_translate (dir : Int) (pivot p : vpoint) : vpoint :=
  rot dir ⟨p.x - pivot.x, p.y - pivot.y⟩

/-- One part as far as rotation bookkeeping is concerned: its mount point
and the two precalculated offset slots (`precalc[0]`, `precalc[1]`). -/
structure rpart where
  mount : vpoint
  precalc0 : vpoint
  precalc1 : vpoint
deriving DecidableEq

/-- `vehicle::precalc_mounts( idir, dir, pivot )`.  Modelled from the
spec: recomputes, for every part, the precalculated offset of slot `idir`
from the part's mount coordinate rotated by `dir` around `pivot`. -/
def precalc_mounts (parts : List rpart) (idir : Nat) (dir : Int) (pivot : vpoint) :
    List rpart :=
  parts.map (fun pt =>
    if idir = 0 then { pt with precalc0 := coord_translate dir pivot pt.mount }
    else { pt with precalc1 := coord_translate dir pivot pt.mount })

/-- The claim's 3-part vehicle — frame at (0,0), frame at (1,0), wheel at
(0,0) — with slot-0 offsets precalculated for the initial facing `0` about
`pivot` (the initial `precalc` values `(-1,-1)` come from the member
initializer in `src/vehicle.h`). -/
def scenario_parts (pivot : vpoint) : List rpart :=
  precalc_mounts
    [⟨⟨0, 0⟩, ⟨-1, -1⟩, ⟨-1, -1⟩⟩, ⟨⟨1, 0⟩, ⟨-1, -1⟩, ⟨-1, -1⟩⟩, ⟨⟨0, 0⟩, ⟨-1, -1⟩, ⟨-1, -1⟩⟩]
    0 0 pivot

/-- Helper for C8: slot-0 precalculation recomputes from the mount
coordinates, so a later pass overwrites an earlier one. -/
theorem precalc_mounts_overwrite (ps : List rpart) (d1 d2 : Int) (pivot : vpoint) :
    precalc_mounts (precalc_mounts ps 0 d1 pivot) 0 d2 pivot =
      precalc_mounts ps 0 d2 pivot := by
  induction ps with
  | nil => rfl
  | cons p rest ih =>
    simp only [precalc_mounts, List.map_cons, List.map_map] at ih ⊢
    simp_all

/-- Claim C8: for the 3-part vehicle (frame at (0,0), frame at (1,0),
wheel at (0,0)) facing `0`, rotating by 90 degrees about the chosen pivot
(recomputing slot-0 offsets at direction `0 + 90`) and then rotating back
by −90 degrees about the same pivot (recomputing at direction
`0 + 90 − 90`) restores every part's original precalculated offsets, and
the underlying point rotation round-trips: rotating by −90 after 90 is
the identity. -/
theorem C8_precalc_round_trip (pivot : vpoint) :
    precalc_mounts (precalc_mounts (scenario_parts pivot) 0 (0 + 90) pivot)
        0 (0 + 90 + -90) pivot =
      scenario_parts pivot ∧
    ∀ q : vpoint, rot (-90) (rot 90 q) = q := by
  constructor
  · rw [precalc_mounts_overwrite]
    show precalc_mounts (scenario_parts pivot) 0 0 pivot = scenario_parts pivot
    simp only [scenario_parts, precalc_mounts_overwrite]
  · intro q
    obtain ⟨qx, qy⟩ := q
    have h90 : ((90 : Int).emod 360) = 90 := by decide
    have hm90 : ((-90 : Int).emod 360) = 270 := by decide
    simp [rot, h90, hm90]

/-! ## Labels (`label` / `vehicle::set_label` / `vehicle::get_label`) -/

/-- `label` of `src/vehicle.h`: a mount coordinate and a text. -/
structure label where
  x : Int
  y : Int
  text : String

/-- `label::operator<`, translated from the inline body in
`src/vehicle.h`: `return (x != rhs.x) ? (x < rhs.x) : (y < rhs.y);` —
the ordering the `std::set<label> labels` member keys on. -/
def label_lt (l rhs : label) : Bool :=
  if l.x ≠ rhs.x then decide (l.x < rhs.x) else decide (l.y < rhs.y)

/-- `vehicle::set_label( x, y, text )`.  Modelled from the spec: stores
the label in the coordinate-keyed set, replacing any existing label at
that mount coordinate. -/
def set_label (ls : List label) (x y : Int) (text : String) : List label :=
  ⟨x, y, text⟩ :: ls.filter (fun l => !(l.x == x && l.y == y))

/-- `vehicle::get_label( x, y )`.  Modelled from the spec: the text of
the label stored at the coordinate, if any. -/
def get_label (ls : List label) (x y : Int) : Option String :=
  (ls.find? (fun l => l.x == x && l.y == y)).map label.text

/-- Claim C10: the label ordering compares only the coordinates and
ignores the text — two labels are equivalent under `label_lt` (neither
less than the other, i.e. the same key for the `std::set`) exactly when
their coordinates agree — hence `set_label` replaces any label at that
coordinate (afterwards the coordinate holds exactly the one new label,
other coordinates are untouched) and `get_label` is determined by the
coordinate alone. -/
theorem C10_label_spec :
    (∀ a b : label, (label_lt a b = false ∧ label_lt b a = false) ↔
      (a.x = b.x ∧ a.y = b.y)) ∧
    (∀ (ls : List label) (x y : Int) (t : String),
      get_label (set_label ls x y t) x y = some t) ∧
    (∀ (ls : List label) (x y : Int) (t : String),
      (set_label ls x y t).filter (fun l => l.x == x && l.y == y) = [⟨x, y, t⟩]) ∧
    (∀ (ls : List label) (x y u v : Int) (t : String), ¬(u = x ∧ v = y) →
      (set_label ls x y t).filter (fun l => l.x == u && l.y == v) =
        ls.filter (fun l => l.x == u && l.y == v)) := by
  refine ⟨?_, ?_, ?_, ?_⟩
  · intro a b
    by_cases hx : a.x = b.x
    · simp [label_lt, hx]
      omega
    · simp [label_lt, hx, Ne.symm hx]
      omega
  · intro ls x y t
    simp [get_label, set_label]
  · intro ls x y t
    simp only [set_label, List.filter_cons]
    simp only [List.filter_filter]
    simp
  · intro ls x y u v t hne
    simp only [set_label, List.filter_cons]
    have hhead : ((⟨x, y, t⟩ : label).x == u && (⟨x, y, t⟩ : label).y == v) = false := by
      by_contra hcon
      rw [Bool.not_eq_false, Bool.and_eq_true] at hcon
      obtain ⟨h1, h2⟩ := hcon
      simp only [beq_iff_eq] at h1 h2
      exact hne ⟨h1.symm, h2.symm⟩
    rw [hhead]
    simp only [Bool.false_eq_true, if_false, List.filter_filter]
    apply List.filter_congr
    intro l hl
    cases hc : (l.x == u && l.y == v) with
    | false => simp [hc]
    | true =>
      cases hpq : (l.x == x && l.y == y) with
      | false => simp [hpq, hc]
      | true =>
        exfalso
        rw [Bool.and_eq_true] at hpq hc
        obtain ⟨h1, h2⟩ := hpq
        obtain ⟨h3, h4⟩ := hc
        simp only [beq_iff_eq] at h1 h2 h3 h4
        exact hne ⟨by omega, by omega⟩

theorem C10_label_spec_witness :
    get_label (set_label [⟨0, 0, "old"⟩] 0 0 "new") 0 0 = some "new" ∧
    (set_label [⟨0, 0, "old"⟩] 0 0 "new").filter (fun l => l.x == 3 && l.y == 4) =
      ([⟨0, 0, "old"⟩] : List label).filter (fun l => l.x == 3 && l.y == 4) :=
  ⟨C10_label_spec.2.1 [⟨0, 0, "old"⟩] 0 0 "new",
   C10_label_spec.2.2.2 [⟨0, 0, "old"⟩] 0 0 3 4 "new" (by omega)⟩

end Veh
